import Mathlib

set_option maxRecDepth 16000

/-!
Verification of the spectrum-analyser streaming pipeline (`src/backup241018.c`)
against its natural-language specification.

The development shallowly embeds the core of the program:

* the Hann window generator `win_hanning`;
* the per-cycle spectral path: the loop copying the first `fft_size`
  windowed I/Q pairs into the FFT input buffer, the forward DFT executed by
  FFTW, and the conversion of each bin to a `(frequency, magnitude_dB)` pair;
* the per-cycle TX synthesis loop with its phase accumulator;
* the stream-coordinator main loop, its error paths and the `shutdown`
  resource-release sequence.

Floating-point `double` arithmetic is modelled over `ℝ` (with `EReal` for the
magnitude, so that `log10 0 = -∞` is represented exactly); C integer values
are modelled over `ℤ`/`ℕ`.
-/

/-! ## Constants of the source -/

/-- `int buffer_size = 1024 * 1024;` — the transport (iio) block size in
samples, used for both the RX and the TX buffer. -/
def buffer_size : ℕ := 1024 * 1024

/-- `fft_size = 1024;` — length of the analysis transform. -/
def fft_size : ℕ := 1024

/-- `rxcfg.fs_hz = MHZ(30.72)` where `MHZ(x) = (long long)(x*1000000.0 + .5)`,
hence `30720000`. -/
def rx_fs_hz : ℤ := 30720000

/-- `txcfg.fs_hz = MHZ(30.72) = 30720000`. -/
def tx_fs_hz : ℤ := 30720000

/-- `FREQ1 = MHZ(8) = 8000000` — first TX tone frequency in Hz. -/
def FREQ1 : ℤ := 8000000

/-- `FREQ2 = MHZ(4) = 4000000` — second TX tone frequency in Hz. -/
def FREQ2 : ℤ := 4000000

/-! ## Window Generator -/

/-- `win_hanning(j, n)` from the source:
`a = 2.0 * M_PI / (n - 1); w = 0.5 * (1.0 - cos(a * j));`. -/
noncomputable def win_hanning (j n : ℕ) : ℝ :=
  let a : ℝ := 2.0 * Real.pi / ((n : ℝ) - 1)
  0.5 * (1.0 - Real.cos (a * (j : ℝ)))

/-! ## Spectral Engine -/

/-- The value stored into the FFT input buffer for the windowed sample `p` at
index `k`: `in[cnt] = (i + I*q) * win[cnt]` in the source. -/
noncomputable def in_val (p : ℤ × ℤ) (k : ℕ) : ℂ :=
  ((p.1 : ℂ) + Complex.I * (p.2 : ℂ)) * ((win_hanning k fft_size : ℝ) : ℂ)

/-- The RX copy loop of the source: it walks over every I/Q pair of the
refilled buffer, and while `cnt < fft_size` stores
`in[cnt] = (i + I*q) * win[cnt]` and increments `cnt`; pairs seen after the
first `fft_size` ones leave the buffer untouched.  `buf` is the current
content of the (heap-allocated, hence a priori arbitrary) FFT input buffer. -/
noncomputable def fillIn : List (ℤ × ℤ) → ℕ → (ℕ → ℂ) → ℕ → ℂ
  | [], _, buf => buf
  | p :: rest, cnt, buf =>
    if cnt < fft_size then
      fillIn rest (cnt + 1) (Function.update buf cnt (in_val p cnt))
    else
      fillIn rest cnt buf

/-- Modelled from the spec and the FFTW documentation (FFTW is a library
external to this repository): the plan built by
`fftw_plan_dft_1d(n, in, out, FFTW_FORWARD, FFTW_ESTIMATE)` and run by
`fftw_execute` computes the unnormalised forward DFT
`out[k] = ∑_{j<n} in[j] · exp(-2πi·j·k/n)`. -/
noncomputable def fftw_forward (n : ℕ) (f : ℕ → ℂ) (k : ℕ) : ℂ :=
  ∑ j in Finset.range n,
    f j * Complex.exp (-2 * (Real.pi : ℂ) * Complex.I * (j : ℂ) * (k : ℂ) / (n : ℂ))

/-- The magnitude published for one bin: `20*log10(cabs(out[cnt]))` in the
source.  Over the reals, `log10 0` is the IEEE value `-∞`, modelled as the
bottom element of `EReal`; for a nonzero modulus it is the finite real
`20·log10|z|`. -/
noncomputable def mag_db (z : ℂ) : EReal :=
  if Complex.abs z = 0 then ⊥ else ((20 * Real.logb 10 (Complex.abs z) : ℝ) : EReal)

/-- One published line of `fft.csv`:
`(((double)cnt/(double)fft_size)*(double)rxcfg.fs_hz, 20*log10(cabs(out[cnt])))`. -/
noncomputable def spectrum_line (out : ℕ → ℂ) (k : ℕ) : ℝ × EReal :=
  (((k : ℝ) / (fft_size : ℝ)) * (rx_fs_hz : ℝ), mag_db (out k))

/-- The per-cycle spectral path of the source, as the loop executes it:
fill the FFT input buffer from the refilled block (starting from the
arbitrary previous buffer content `init`), run the forward transform, and
publish bin `k`. -/
noncomputable def analyze (samples : List (ℤ × ℤ)) (init : ℕ → ℂ) (k : ℕ) : ℝ × EReal :=
  spectrum_line (fftw_forward fft_size (fillIn samples 0 init)) k

/-- The Spectral Engine contract as the spec words it: take the first
`fft_size` I/Q pairs, form `in[k] = (I_k + j·Q_k)·window[k]`, apply the
forward DFT, and publish `freq_k = (k/fft_size)·sample_rate_hz` with
`mag_db_k = 20·log10(|out[k]|)`. -/
noncomputable def analyzeSpec (samples : List (ℤ × ℤ)) (k : ℕ) : ℝ × EReal :=
  (((k : ℝ) / (fft_size : ℝ)) * (rx_fs_hz : ℝ),
   mag_db (fftw_forward fft_size
     (fun j => (((samples.getD j (0, 0)).1 : ℂ) + Complex.I * ((samples.getD j (0, 0)).2 : ℂ))
       * ((win_hanning j fft_size : ℝ) : ℂ)) k))

/-! ## Waveform Synthesizer (TX path) -/

/-- `double ampl = 128;`. -/
def ampl : ℝ := 128

/-- `float freq1 = 2.0 * M_PI * FREQ1;` — the precomputed angular frequency of
the first tone. -/
noncomputable def freq1 : ℝ := 2.0 * Real.pi * (FREQ1 : ℝ)

/-- `float freq2 = 2.0 * M_PI * FREQ2;`. -/
noncomputable def freq2 : ℝ := 2.0 * Real.pi * (FREQ2 : ℝ)

/-- Wrap an integer into the signed 16-bit range `[-32768, 32767]`, the
modular behaviour of storing into an `int16_t` transport slot. -/
def wrap_int16 (v : ℤ) : ℤ := (v + 32768) % 65536 - 32768

/-- The C conversion of a `double` to an integer type: truncation toward
zero (floor for nonnegative values, ceiling for negative ones). -/
noncomputable def c_trunc (x : ℝ) : ℤ := if 0 ≤ x then ⌊x⌋ else ⌈x⌉

/-- Conversion of a `double` expression to `short`, as in
`short ipart = ampl * cos(freq1 * i) + ...`: truncate toward zero, then
reduce to the 16-bit width. -/
noncomputable def c_double_to_short (x : ℝ) : ℤ := wrap_int16 (c_trunc x)

/-- One synthesized TX sample, from the body of the TX fill loop:
`ipart = ampl*cos(freq1*i) + ampl*cos(freq2*i)`,
`qpart = ampl*sin(freq1*i) + ampl*sin(freq2*i)`, stored as `int16_t`. -/
noncomputable def tx_sample (t : ℝ) : ℤ × ℤ :=
  (c_double_to_short (ampl * Real.cos (freq1 * t) + ampl * Real.cos (freq2 * t)),
   c_double_to_short (ampl * Real.sin (freq1 * t) + ampl * Real.sin (freq2 * t)))

/-- The Waveform Synthesizer contract as the spec words it:
`I = A·cos(2π·f1·t) + A·cos(2π·f2·t)`, `Q = A·sin(2π·f1·t) + A·sin(2π·f2·t)`,
quantized to the transport's signed 16-bit sample width. -/
noncomputable def tx_sample_spec (t : ℝ) : ℤ × ℤ :=
  (c_double_to_short (ampl * Real.cos (2 * Real.pi * (FREQ1 : ℝ) * t)
      + ampl * Real.cos (2 * Real.pi * (FREQ2 : ℝ) * t)),
   c_double_to_short (ampl * Real.sin (2 * Real.pi * (FREQ1 : ℝ) * t)
      + ampl * Real.sin (2 * Real.pi * (FREQ2 : ℝ) * t)))

/-- The successive values of the TX phase accumulator for the next `n`
synthesized samples, starting from accumulator value `t0`: the TX fill loop
uses the current value of `i` for each sample and then does
`i += 1. / txcfg.fs_hz;`. -/
noncomputable def tx_times_from (t0 : ℝ) : ℕ → List ℝ
  | 0 => []
  | Nat.succ k => t0 :: tx_times_from (t0 + 1 / (tx_fs_hz : ℝ)) k

/-- The phase-accumulator values used by one cycle of the main loop for a TX
block of `nsamp` samples.  The accumulator is the local
`double i = 1. / txcfg.fs_hz;` declared inside the `while (!stop)` body, so
every cycle starts from the same value `1/fs`. -/
noncomputable def cycle_tx_times (nsamp : ℕ) : List ℝ :=
  tx_times_from (1 / (tx_fs_hz : ℝ)) nsamp

/-- The concatenated sequence of phase-accumulator values passed to the
synthesizer over `ncycles` consecutive cycles of the main loop.  Because the
accumulator is re-declared and re-initialised inside the loop body, every
cycle contributes the identical list `cycle_tx_times nsamp`. -/
noncomputable def global_tx_times (ncycles nsamp : ℕ) : List ℝ :=
  (List.replicate ncycles (cycle_tx_times nsamp)).flatten

/-! ## Stream Coordinator -/

/-- The resources acquired during INIT that the shutdown paths may release. -/
inductive Res
  | rxBuf | txBuf | chRxI | chRxQ | chTxI | chTxQ | iioCtx
  | fp1 | fp2 | fftPlan | fftIn | fftOut
  deriving DecidableEq, Repr

/-- The release sequence performed by `shutdown()` once the streaming loop is
running (all handles non-NULL): destroy the RX buffer, destroy the TX buffer,
disable the four streaming channels, destroy the iio context, `exit(0)`. -/
def shutdown_seq : List Res :=
  [Res.rxBuf, Res.txBuf, Res.chRxI, Res.chRxQ, Res.chTxI, Res.chTxQ, Res.iioCtx]

/-- The release sequence of the normal (cancellation) exit path: after the
loop, `main` closes `fp1` and `fp2`, destroys the FFT plan, frees the FFT
`in`/`out` buffers, and then calls `shutdown()`. -/
def clean_exit_seq : List Res :=
  [Res.fp1, Res.fp2, Res.fftPlan, Res.fftIn, Res.fftOut] ++ shutdown_seq

/-- The external world seen by the main loop: the return value of
`iio_buffer_push`/`iio_buffer_refill` at each cycle, the value of the
asynchronous `stop` flag as observed by the `while (!stop)` check before each
cycle, and the per-sample byte widths reported by the transport. -/
structure Env where
  pushRet : ℕ → ℤ
  refillRet : ℕ → ℤ
  stopAt : ℕ → Bool
  rxSampleSize : ℕ
  txSampleSize : ℕ

/-- The mutable coordinator state: number of completed cycles and the
cumulative RX/TX sample counters `nrx`/`ntx`. -/
structure LoopState where
  cycles : ℕ
  nrx : ℕ
  ntx : ℕ
  deriving DecidableEq, Repr

/-- Why the process terminated. -/
inductive StopCause
  | cancelled | pushError | refillError | configError
  deriving DecidableEq, Repr

/-- Observable outcome of a terminated run: the cause, how many full cycles
completed, the final counters, the process exit status, how many times
`shutdown()` ran, and the ordered list of resources released before exit. -/
structure Outcome where
  cause : StopCause
  cyclesCompleted : ℕ
  nrx : ℕ
  ntx : ℕ
  exitCode : ℕ
  shutdownRuns : ℕ
  released : List Res
  deriving DecidableEq, Repr

/-- The per-cycle counter update of the source:
`nrx += nbytes_rx / iio_device_get_sample_size(rx);`
`ntx += nbytes_tx / iio_device_get_sample_size(tx);`
(both byte counts are nonnegative on this path). -/
def cycle_update (env : Env) (s : LoopState) (nbytesTx nbytesRx : ℤ) : LoopState :=
  { cycles := s.cycles + 1,
    nrx := s.nrx + nbytesRx.toNat / env.rxSampleSize,
    ntx := s.ntx + nbytesTx.toNat / env.txSampleSize }

/-- The `while (!stop)` main loop.  Each iteration: check the cancellation
flag; push the TX buffer (`shutdown()` and `exit(0)` on negative return);
refill the RX buffer (likewise); run the spectral path and the TX synthesis
(pure, modelled separately); update the cumulative counters.  `fuel` bounds
the number of simulated iterations; `none` means the loop is still running
when the fuel runs out. -/
def run_loop (env : Env) : ℕ → LoopState → Option Outcome
  | 0, _ => none
  | fuel + 1, s =>
    if env.stopAt s.cycles then
      some { cause := StopCause.cancelled, cyclesCompleted := s.cycles,
             nrx := s.nrx, ntx := s.ntx, exitCode := 0, shutdownRuns := 1,
             released := clean_exit_seq }
    else if env.pushRet s.cycles < 0 then
      some { cause := StopCause.pushError, cyclesCompleted := s.cycles,
             nrx := s.nrx, ntx := s.ntx, exitCode := 0, shutdownRuns := 1,
             released := shutdown_seq }
    else if env.refillRet s.cycles < 0 then
      some { cause := StopCause.refillError, cyclesCompleted := s.cycles,
             nrx := s.nrx, ntx := s.ntx, exitCode := 0, shutdownRuns := 1,
             released := shutdown_seq }
    else
      run_loop env fuel (cycle_update env s (env.pushRet s.cycles) (env.refillRet s.cycles))

/-- The configuration-failure path: `errchk` sees a negative return from an
attribute write during `cfg_ad9361_streaming_ch` and calls `shutdown()`.  At
that point the buffers are not yet created and the streaming channels not yet
looked up (all still NULL), so `shutdown()` only destroys the iio context,
then `exit(0)`. -/
def config_error_outcome : Outcome :=
  { cause := StopCause.configError, cyclesCompleted := 0, nrx := 0, ntx := 0,
    exitCode := 0, shutdownRuns := 1, released := [Res.iioCtx] }

/-- A concrete environment whose cancellation flag is already set at the first
check: the loop exits immediately through the clean path. -/
def env_cancel_now : Env :=
  { pushRet := fun _ => 0, refillRet := fun _ => 0, stopAt := fun _ => true,
    rxSampleSize := 4, txSampleSize := 4 }

/-- A concrete environment whose very first `iio_buffer_push` fails. -/
def env_push_fail : Env :=
  { pushRet := fun _ => -1, refillRet := fun _ => 0, stopAt := fun _ => false,
    rxSampleSize := 4, txSampleSize := 4 }

/-- A concrete error-free environment (4-byte samples, full blocks) whose
cancellation flag is set during cycle 0, hence observed from the check
before cycle 1 on. -/
def env_sig_cycle0 : Env :=
  { pushRet := fun _ => 4, refillRet := fun _ => 4,
    stopAt := fun c => decide (0 < c),
    rxSampleSize := 4, txSampleSize := 4 }

/-- A concrete error-free environment transferring full blocks of 4-byte
samples every cycle, stopping at the check before cycle 1. -/
def env_full_blocks : Env :=
  { pushRet := fun _ => ((buffer_size * 4 : ℕ) : ℤ),
    refillRet := fun _ => ((buffer_size * 4 : ℕ) : ℤ),
    stopAt := fun c => decide (1 ≤ c),
    rxSampleSize := 4, txSampleSize := 4 }

/-! ## Window Generator lemmas -/

lemma win_hanning_def (j n : ℕ) :
    win_hanning j n = 0.5 * (1.0 - Real.cos (2.0 * Real.pi / ((n : ℝ) - 1) * (j : ℝ))) := rfl

lemma win_hanning_formula (j n : ℕ) :
    win_hanning j n = 0.5 * (1 - Real.cos (2 * Real.pi * (j : ℝ) / ((n : ℝ) - 1))) := by
  rw [win_hanning_def]
  norm_num
  ring_nf

lemma win_hanning_zero_left (n : ℕ) : win_hanning 0 n = 0 := by
  rw [win_hanning_def]
  norm_num

lemma win_hanning_last {n : ℕ} (hn : 2 ≤ n) : win_hanning (n - 1) n = 0 := by
  have h1 : ((n - 1 : ℕ) : ℝ) = (n : ℝ) - 1 := by
    have h : (1 : ℕ) ≤ n := le_trans (by norm_num) hn
    push_cast [h]
    ring
  have h2 : ((n : ℝ) - 1) ≠ 0 := by
    have : (2 : ℝ) ≤ (n : ℝ) := by exact_mod_cast hn
    linarith
  rw [win_hanning_def, h1, div_mul_cancel₀ _ h2]
  norm_num [Real.cos_two_pi]

lemma win_hanning_le_one (j n : ℕ) : win_hanning j n ≤ 1 := by
  rw [win_hanning_def]
  have := Real.neg_one_le_cos (2.0 * Real.pi / ((n : ℝ) - 1) * (j : ℝ))
  linarith

lemma win_hanning_midpoint {m : ℕ} (hm : 1 ≤ m) : win_hanning m (2 * m + 1) = 1 := by
  have hm0 : ((m : ℝ)) ≠ 0 := by
    have : (0 : ℝ) < (m : ℝ) := by exact_mod_cast hm
    linarith
  have h1 : ((2 * m + 1 : ℕ) : ℝ) - 1 = 2 * (m : ℝ) := by push_cast; ring
  have h2 : 2.0 * Real.pi / (2 * (m : ℝ)) * (m : ℝ) = Real.pi := by
    field_simp
    ring
  rw [win_hanning_def, h1, h2, Real.cos_pi]
  norm_num

lemma win_hanning_eq_one_unique {m j : ℕ} (hm : 1 ≤ m) (hj : j < 2 * m + 1)
    (h1 : win_hanning j (2 * m + 1) = 1) : j = m := by
  have hm0 : (0 : ℝ) < (m : ℝ) := by exact_mod_cast hm
  have hcast : ((2 * m + 1 : ℕ) : ℝ) - 1 = 2 * (m : ℝ) := by push_cast; ring
  rw [win_hanning_def, hcast] at h1
  set x : ℝ := 2.0 * Real.pi / (2 * (m : ℝ)) * (j : ℝ) with hx
  have hcos : Real.cos x = -1 := by linarith
  have hxval : x = Real.pi * (j : ℝ) / (m : ℝ) := by
    rw [hx]; field_simp; ring
  have hxlo : 0 ≤ x := by
    rw [hxval]; positivity
  have hj' : (j : ℝ) ≤ 2 * (m : ℝ) := by exact_mod_cast Nat.lt_succ_iff.mp hj
  have hxhi : x ≤ 2 * Real.pi := by
    rw [hxval, div_le_iff₀ hm0]
    nlinarith [Real.pi_pos]
  have hshift : Real.cos (x - Real.pi) = 1 := by
    rw [Real.cos_sub, Real.cos_pi, Real.sin_pi, hcos]; ring
  have hbound1 : -(2 * Real.pi) < x - Real.pi := by nlinarith [Real.pi_pos]
  have hbound2 : x - Real.pi < 2 * Real.pi := by nlinarith [Real.pi_pos]
  have hzero := (Real.cos_eq_one_iff_of_lt_of_lt hbound1 hbound2).mp hshift
  have hxpi : x = Real.pi := by linarith
  rw [hxval] at hxpi
  field_simp at hxpi
  rcases hxpi with h | h
  · exact h
  · exact absurd h Real.pi_ne_zero

lemma cos_two_pi_div_three : Real.cos (2 * Real.pi / 3) = -(1 / 2) := by
  have h : 2 * Real.pi / 3 = Real.pi - Real.pi / 3 := by ring
  rw [h, Real.cos_pi_sub, Real.cos_pi_div_three]

lemma cos_four_pi_div_three : Real.cos (4 * Real.pi / 3) = -(1 / 2) := by
  have h : 4 * Real.pi / 3 = 2 * (2 * Real.pi / 3) := by ring
  rw [h, Real.cos_two_mul, cos_two_pi_div_three]
  norm_num

lemma win_hanning_one_four : win_hanning 1 4 = 3 / 4 := by
  have h : 2.0 * Real.pi / (((4 : ℕ) : ℝ) - 1) * ((1 : ℕ) : ℝ) = 2 * Real.pi / 3 := by
    push_cast; ring
  rw [win_hanning_def, h, cos_two_pi_div_three]
  norm_num

lemma win_hanning_two_four : win_hanning 2 4 = 3 / 4 := by
  have h : 2.0 * Real.pi / (((4 : ℕ) : ℝ) - 1) * ((2 : ℕ) : ℝ) = 4 * Real.pi / 3 := by
    push_cast; ring
  rw [win_hanning_def, h, cos_four_pi_div_three]
  norm_num

/-- C2 counterexample: the claim asserts, for every `length ≥ 2`, a single
maximum approximately 1 at the midpoint.  At `length = 2` both window values
are exactly `0` (there is no value anywhere near 1), and at `length = 4` the
maximal value `3/4` is attained at the two distinct indices `1` and `2`, so
no single maximizing index exists. -/
theorem C2_claim_counterexample :
    win_hanning 0 2 = 0 ∧ win_hanning 1 2 = 0 ∧
    win_hanning 1 4 = 3 / 4 ∧ win_hanning 2 4 = 3 / 4 ∧
    win_hanning 0 4 = 0 ∧ win_hanning 3 4 = 0 :=
  ⟨win_hanning_zero_left 2, win_hanning_last (le_refl 2),
   win_hanning_one_four, win_hanning_two_four,
   win_hanning_zero_left 4, win_hanning_last (by norm_num)⟩

/-- C2 (amended): for every `length ≥ 2` and every index `j`, the Window
Generator returns the Hann value `w[j] = 0.5·(1 − cos(2π·j/(length−1)))`;
consequently `w[0] = w[length−1] = 0` exactly and every window value is at
most 1, independent of any runtime sample content (`win_hanning` is a pure
function of `j` and `length`).  For odd `length = 2m+1 ≥ 3` the midpoint
value `w[m]` is exactly 1 and `m` is the unique index attaining 1.  The
claimed single maximum approximately 1 does not hold in general: the
counterexample shows every value is 0 at length 2, and at length 4 the
value `3/4` is attained at both indices 1 and 2 (the other two values
being 0). -/
theorem C2_window_hann (n : ℕ) (hn : 2 ≤ n) :
    (∀ j : ℕ, win_hanning j n = 0.5 * (1 - Real.cos (2 * Real.pi * (j : ℝ) / ((n : ℝ) - 1)))) ∧
    win_hanning 0 n = 0 ∧ win_hanning (n - 1) n = 0 ∧
    (∀ j : ℕ, win_hanning j n ≤ 1) ∧
    (∀ m : ℕ, 1 ≤ m → n = 2 * m + 1 →
      win_hanning m n = 1 ∧ (∀ j : ℕ, j < n → win_hanning j n = 1 → j = m)) := by
  refine ⟨fun j => win_hanning_formula j n, win_hanning_zero_left n, win_hanning_last hn,
    fun j => win_hanning_le_one j n, ?_⟩
  rintro m hm rfl
  exact ⟨win_hanning_midpoint hm, fun j hj h1 => win_hanning_eq_one_unique hm hj h1⟩

/-- Witness for `C2_window_hann` at the concrete length 3: the endpoint
values are 0, the bound holds at index 1, and the midpoint value is
exactly 1. -/
theorem C2_window_hann_witness :
    win_hanning 0 3 = 0 ∧ win_hanning 2 3 = 0 ∧ win_hanning 1 3 ≤ 1 ∧
    win_hanning 1 3 = 1 :=
  ⟨(C2_window_hann 3 (by norm_num)).2.1,
   (C2_window_hann 3 (by norm_num)).2.2.1,
   (C2_window_hann 3 (by norm_num)).2.2.2.1 1,
   ((C2_window_hann 3 (by norm_num)).2.2.2.2 1 (le_refl 1) rfl).1⟩

/-! ## Spectral Engine lemmas -/

/-- Indices below the running counter are never touched by the copy loop. -/
lemma fillIn_below (l : List (ℤ × ℤ)) : ∀ (cnt : ℕ) (buf : ℕ → ℂ) (j : ℕ),
    j < cnt → fillIn l cnt buf j = buf j := by
  induction l with
  | nil => intro cnt buf j _; rfl
  | cons p rest ih =>
    intro cnt buf j hj
    simp only [fillIn]
    by_cases h : cnt < fft_size
    · rw [if_pos h, ih (cnt + 1) _ j (Nat.lt_succ_of_lt hj)]
      exact Function.update_noteq (Nat.ne_of_lt hj) _ _
    · rw [if_neg h]
      exact ih cnt buf j hj

/-- Loop invariant of the RX copy loop: position `j` of the FFT input buffer
(for `cnt ≤ j < fft_size`, provided enough samples remain) ends up holding the
windowed value of the `(j - cnt)`-th remaining sample. -/
lemma fillIn_get (l : List (ℤ × ℤ)) : ∀ (cnt : ℕ) (buf : ℕ → ℂ) (j : ℕ),
    cnt ≤ j → j < fft_size → j - cnt < l.length →
    fillIn l cnt buf j = in_val (l.getD (j - cnt) (0, 0)) j := by
  induction l with
  | nil =>
    intro cnt buf j _ _ h
    simp at h
  | cons p rest ih =>
    intro cnt buf j hcj hjf hlen
    have hcf : cnt < fft_size := lt_of_le_of_lt hcj hjf
    simp only [fillIn, if_pos hcf]
    rcases Nat.eq_or_lt_of_le hcj with heq | hlt
    · subst heq
      rw [fillIn_below rest (cnt + 1) _ cnt (Nat.lt_succ_self cnt)]
      simp [Function.update_same, Nat.sub_self]
    · have h1 : cnt + 1 ≤ j := hlt
      have h2 : j - (cnt + 1) < rest.length := by
        simp only [List.length_cons] at hlen
        omega
      rw [ih (cnt + 1) _ j h1 hjf h2]
      have h3 : j - cnt = (j - (cnt + 1)) + 1 := by omega
      rw [h3, List.getD_cons_succ]

/-- The copy loop started at `cnt = 0` stores, at each `j < fft_size`, exactly
the windowed `j`-th sample of the refilled block.  In particular neither the
previous buffer content nor any sample beyond the first `fft_size` ones can
influence the buffer positions the transform reads. -/
lemma fillIn_spec (samples : List (ℤ × ℤ)) (init : ℕ → ℂ) (j : ℕ)
    (hj : j < fft_size) (hlen : fft_size ≤ samples.length) :
    fillIn samples 0 init j = in_val (samples.getD j (0, 0)) j := by
  have h := fillIn_get samples 0 init j (Nat.zero_le j) hj (by omega)
  simpa using h

/-- Reading the first `fft_size` entries of two blocks that agree on their
first `fft_size` entries gives the same values. -/
lemma getD_take_eq {s₁ s₂ : List (ℤ × ℤ)} (h : s₁.take fft_size = s₂.take fft_size)
    {j : ℕ} (hj : j < fft_size) : s₁.getD j (0, 0) = s₂.getD j (0, 0) := by
  rw [List.getD_eq_getElem?_getD, List.getD_eq_getElem?_getD,
    ← List.getElem?_take_of_lt (l := s₁) hj, ← List.getElem?_take_of_lt (l := s₂) hj, h]

set_option maxRecDepth 8000 in
/-- The per-cycle spectral path equals the Spectral Engine contract of the
spec, for every starting buffer content. -/
lemma analyze_eq_analyzeSpec (samples : List (ℤ × ℤ)) (init : ℕ → ℂ) (k : ℕ)
    (hlen : fft_size ≤ samples.length) :
    analyze samples init k = analyzeSpec samples k := by
  unfold analyze spectrum_line analyzeSpec
  refine Prod.ext rfl ?_
  show mag_db _ = mag_db _
  congr 1
  unfold fftw_forward
  refine Finset.sum_congr rfl ?_
  intro j hj
  rw [fillIn_spec samples init j (Finset.mem_range.mp hj) hlen]
  rfl

set_option maxRecDepth 8000 in
/-- The published spectrum depends only on the first `fft_size` I/Q pairs. -/
lemma analyzeSpec_congr {s₁ s₂ : List (ℤ × ℤ)} (h : s₁.take fft_size = s₂.take fft_size)
    (k : ℕ) : analyzeSpec s₁ k = analyzeSpec s₂ k := by
  unfold analyzeSpec
  refine Prod.ext rfl ?_
  show mag_db _ = mag_db _
  congr 1
  unfold fftw_forward
  refine Finset.sum_congr rfl ?_
  intro j hj
  simp only [getD_take_eq h (Finset.mem_range.mp hj)]

/-- C1: each cycle the Spectral Engine consumes exactly the first `fft_size`
I/Q pairs of the refilled block (everything else — later samples and the
previous FFT-buffer content — is ignored), builds
`in[k] = (I_k + j·Q_k)·window[k]`, applies the forward DFT of length
`fft_size`, and publishes, for every bin `k`,
`freq_k = (k/fft_size)·sample_rate_hz` and `mag_db_k = 20·log10(|out[k]|)`
(the latter with the documented value `-∞` when `|out[k]| = 0`). -/
theorem C1_spectral_path :
    (∀ (samples : List (ℤ × ℤ)) (init : ℕ → ℂ) (k : ℕ), fft_size ≤ samples.length →
      analyze samples init k = analyzeSpec samples k) ∧
    (∀ (s₁ s₂ : List (ℤ × ℤ)) (init₁ init₂ : ℕ → ℂ) (k : ℕ),
      fft_size ≤ s₁.length → fft_size ≤ s₂.length →
      s₁.take fft_size = s₂.take fft_size →
      analyze s₁ init₁ k = analyze s₂ init₂ k) := by
  constructor
  · exact fun samples init k hlen => analyze_eq_analyzeSpec samples init k hlen
  · intro s₁ s₂ init₁ init₂ k h₁ h₂ htake
    rw [analyze_eq_analyzeSpec s₁ init₁ k h₁, analyze_eq_analyzeSpec s₂ init₂ k h₂]
    exact analyzeSpec_congr htake k

/-- Witness for `C1_spectral_path`: a full-size all-zero block matches the
contract at bin 0, and extending the block beyond `fft_size` samples (and
changing the initial buffer content) leaves the published spectrum
unchanged. -/
theorem C1_spectral_path_witness :
    analyze (List.replicate 1024 ((0 : ℤ), (0 : ℤ))) (fun _ => 0) 0
      = analyzeSpec (List.replicate 1024 ((0 : ℤ), (0 : ℤ))) 0 ∧
    analyze (List.replicate 1024 ((0 : ℤ), (0 : ℤ))) (fun _ => 0) 0
      = analyze (List.replicate 2048 ((0 : ℤ), (0 : ℤ))) (fun _ => Complex.I) 0 :=
  ⟨C1_spectral_path.1 _ _ 0 (by simp [fft_size]),
   C1_spectral_path.2 _ _ _ _ 0 (by simp [fft_size]) (by simp [fft_size])
     (by simp [fft_size, List.take_replicate])⟩

/-- C9: for an all-zero input block every published bin magnitude is the
defined zero-magnitude value `-∞` (no error is propagated: the path is
total). -/
theorem C9_zero_block (samples : List (ℤ × ℤ)) (init : ℕ → ℂ) (k : ℕ)
    (hzero : ∀ p ∈ samples, p = ((0 : ℤ), (0 : ℤ))) (hlen : fft_size ≤ samples.length) :
    (analyze samples init k).2 = (⊥ : EReal) := by
  have hout : fftw_forward fft_size (fillIn samples 0 init) k = 0 := by
    unfold fftw_forward
    refine Finset.sum_eq_zero ?_
    intro j hj
    have hjf : j < fft_size := Finset.mem_range.mp hj
    rw [fillIn_spec samples init j hjf hlen]
    have hjl : j < samples.length := lt_of_lt_of_le hjf hlen
    have hmem : samples.getD j (0, 0) = ((0 : ℤ), (0 : ℤ)) := by
      rw [List.getD_eq_getElem samples (0, 0) hjl]
      exact hzero _ (List.getElem_mem hjl)
    rw [hmem]
    simp [in_val]
  show mag_db _ = _
  rw [hout]
  simp [mag_db]

/-- Witness for `C9_zero_block`: the all-zero block of one full transport
cycle yields the `-∞` floor at bin 0. -/
theorem C9_zero_block_witness :
    (analyze (List.replicate 1024 ((0 : ℤ), (0 : ℤ))) (fun _ => 0) 0).2 = (⊥ : EReal) :=
  C9_zero_block _ _ 0 (fun _ hp => List.eq_of_mem_replicate hp) (by simp [fft_size])

/-- C10: the Hann window value at index `fft_size - 1` is exactly 0, so the
last element of the analysis block is exactly 0 for every input block — the
`fft_size`-th captured I/Q pair never contributes to the spectrum. -/
theorem C10_last_elem_zero (samples : List (ℤ × ℤ)) (init : ℕ → ℂ)
    (hlen : fft_size ≤ samples.length) :
    win_hanning (fft_size - 1) fft_size = 0 ∧
    fillIn samples 0 init (fft_size - 1) = 0 := by
  have hwin : win_hanning (fft_size - 1) fft_size = 0 :=
    win_hanning_last (by norm_num [fft_size])
  refine ⟨hwin, ?_⟩
  rw [fillIn_spec samples init (fft_size - 1) (by norm_num [fft_size]) hlen]
  unfold in_val
  rw [hwin]
  simp

/-- Witness for `C10_last_elem_zero`: with a block of nonzero samples
`(5, 7)`, the last analysis element is still exactly 0. -/
theorem C10_last_elem_zero_witness :
    win_hanning 1023 1024 = 0 ∧
    fillIn (List.replicate 1024 ((5 : ℤ), (7 : ℤ))) 0 (fun _ => 0) 1023 = 0 :=
  C10_last_elem_zero _ _ (by simp [fft_size])

/-! ## Waveform Synthesizer lemmas -/

/-- The two-tone sum with amplitude 128 is bounded by 256 in absolute value. -/
lemma two_tone_abs_le (x y : ℝ) (hx : |x| ≤ 1) (hy : |y| ≤ 1) :
    |ampl * x + ampl * y| ≤ 256 := by
  have h := abs_add (ampl * x) (ampl * y)
  rw [abs_mul, abs_mul] at h
  have ha : |ampl| = 128 := by norm_num [ampl]
  rw [ha] at h
  nlinarith [abs_nonneg x, abs_nonneg y]

/-- C truncation toward zero of a value bounded by 256 stays in `[-256, 256]`. -/
lemma c_trunc_bound {x : ℝ} (h : |x| ≤ 256) : -256 ≤ c_trunc x ∧ c_trunc x ≤ 256 := by
  rcases abs_le.mp h with ⟨h1, h2⟩
  unfold c_trunc
  split
  · rename_i hx
    constructor
    · have : (0 : ℤ) ≤ ⌊x⌋ := Int.floor_nonneg.mpr hx
      omega
    · have : (⌊x⌋ : ℝ) ≤ 256 := le_trans (Int.floor_le x) h2
      exact_mod_cast this
  · rename_i hx
    push_neg at hx
    constructor
    · have : (-256 : ℝ) ≤ (⌈x⌉ : ℝ) := le_trans h1 (Int.le_ceil x)
      exact_mod_cast this
    · have : ⌈x⌉ ≤ 0 := Int.ceil_le.mpr (by exact_mod_cast le_of_lt hx)
      omega

/-- Values already inside the `int16_t` range are unchanged by the 16-bit
wraparound. -/
lemma wrap_int16_eq_self {v : ℤ} (h1 : -32768 ≤ v) (h2 : v ≤ 32767) :
    wrap_int16 v = v := by
  unfold wrap_int16
  rw [Int.emod_eq_of_lt (by omega) (by omega)]
  omega

lemma freq1_mul (t : ℝ) : freq1 * t = 2 * Real.pi * (FREQ1 : ℝ) * t := by
  unfold freq1
  norm_num

lemma freq2_mul (t : ℝ) : freq2 * t = 2 * Real.pi * (FREQ2 : ℝ) * t := by
  unfold freq2
  norm_num

/-- C4: for every caller-supplied time `t`, the synthesizer produces
`I = A·cos(2π·f1·t) + A·cos(2π·f2·t)` and `Q = A·sin(2π·f1·t) + A·sin(2π·f2·t)`
(`A = 128`, `f1 = 8 MHz`, `f2 = 4 MHz`) quantized to the transport's signed
16-bit sample width; the quantization is plain truncation toward zero — the
values are bounded by 256 in magnitude, so the 16-bit store never wraps and
the result always lies in `[-32768, 32767]`. -/
theorem C4_tx_synth (t : ℝ) :
    tx_sample t = tx_sample_spec t ∧
    tx_sample t =
      (c_trunc (ampl * Real.cos (2 * Real.pi * (FREQ1 : ℝ) * t)
          + ampl * Real.cos (2 * Real.pi * (FREQ2 : ℝ) * t)),
       c_trunc (ampl * Real.sin (2 * Real.pi * (FREQ1 : ℝ) * t)
          + ampl * Real.sin (2 * Real.pi * (FREQ2 : ℝ) * t))) ∧
    -32768 ≤ (tx_sample t).1 ∧ (tx_sample t).1 ≤ 32767 ∧
    -32768 ≤ (tx_sample t).2 ∧ (tx_sample t).2 ≤ 32767 := by
  have hI : |ampl * Real.cos (2 * Real.pi * (FREQ1 : ℝ) * t)
      + ampl * Real.cos (2 * Real.pi * (FREQ2 : ℝ) * t)| ≤ 256 :=
    two_tone_abs_le _ _ (Real.abs_cos_le_one _) (Real.abs_cos_le_one _)
  have hQ : |ampl * Real.sin (2 * Real.pi * (FREQ1 : ℝ) * t)
      + ampl * Real.sin (2 * Real.pi * (FREQ2 : ℝ) * t)| ≤ 256 :=
    two_tone_abs_le _ _ (Real.abs_sin_le_one _) (Real.abs_sin_le_one _)
  have hItr := c_trunc_bound hI
  have hQtr := c_trunc_bound hQ
  have hspec : tx_sample t = tx_sample_spec t := by
    unfold tx_sample tx_sample_spec
    rw [freq1_mul, freq2_mul]
  have htr : tx_sample t =
      (c_trunc (ampl * Real.cos (2 * Real.pi * (FREQ1 : ℝ) * t)
          + ampl * Real.cos (2 * Real.pi * (FREQ2 : ℝ) * t)),
       c_trunc (ampl * Real.sin (2 * Real.pi * (FREQ1 : ℝ) * t)
          + ampl * Real.sin (2 * Real.pi * (FREQ2 : ℝ) * t))) := by
    rw [hspec]
    unfold tx_sample_spec c_double_to_short
    rw [wrap_int16_eq_self (by omega) (by omega),
        wrap_int16_eq_self (by omega) (by omega)]
  refine ⟨hspec, htr, ?_, ?_, ?_, ?_⟩ <;> rw [htr] <;> simp <;> omega

/-! ## TX phase accumulator lemmas -/

lemma tx_times_from_length (n : ℕ) : ∀ t0 : ℝ, (tx_times_from t0 n).length = n := by
  induction n with
  | zero => intro t0; rfl
  | succ k ih =>
    intro t0
    simp [tx_times_from, ih]

lemma tx_times_from_get (n : ℕ) : ∀ (t0 : ℝ) (m : ℕ), m < n →
    (tx_times_from t0 n)[m]? = some (t0 + (m : ℝ) * (1 / (tx_fs_hz : ℝ))) := by
  induction n with
  | zero => intro t0 m h; omega
  | succ k ih =>
    intro t0 m hm
    cases m with
    | zero => simp [tx_times_from]
    | succ m' =>
      have h := ih (t0 + 1 / (tx_fs_hz : ℝ)) m' (by omega)
      simp only [tx_times_from, List.getElem?_cons_succ, h]
      congr 1
      push_cast
      ring

/-- Position `c·n + m` of the process-lifetime phase sequence (cycle `c`,
sample `m`) holds `1/fs + m·(1/fs)` — independent of the cycle index `c`,
because the accumulator is re-initialised at every cycle. -/
lemma global_tx_times_get (n : ℕ) : ∀ (C c m : ℕ), c < C → m < n →
    (global_tx_times C n)[c * n + m]? =
      some (1 / (tx_fs_hz : ℝ) + (m : ℝ) * (1 / (tx_fs_hz : ℝ))) := by
  intro C
  induction C with
  | zero => intro c m hc _; omega
  | succ C' ih =>
    intro c m hc hm
    have hsplit : global_tx_times (C' + 1) n
        = cycle_tx_times n ++ global_tx_times C' n := by
      simp [global_tx_times, List.replicate_succ]
    have hlen : (cycle_tx_times n).length = n := tx_times_from_length n _
    rw [hsplit]
    cases c with
    | zero =>
      have hidx : 0 * n + m = m := by omega
      rw [hidx, List.getElem?_append_left (by omega)]
      exact tx_times_from_get n _ m hm
    | succ c' =>
      have hidx : (c' + 1) * n + m = n + (c' * n + m) := by ring
      rw [hidx, List.getElem?_append_right (by omega), hlen,
        Nat.add_sub_cancel_left]
      exact ih c' m (by omega) hm

/-- C3 counterexample: with the program's block size of `1024·1024` samples,
the last synthesis time of cycle 0 (position `buffer_size - 1`) is
`buffer_size/fs`, yet the first synthesis time of cycle 1 (position
`buffer_size`) is again `1/fs` — equal to the very first time of cycle 0 —
instead of the value `buffer_size/fs + 1/fs` that a never-reset accumulator
advancing by `1/fs` would produce.  The claimed strict increase across block
boundaries therefore fails. -/
theorem C3_claim_counterexample :
    (global_tx_times 2 buffer_size)[buffer_size - 1]? =
      some ((buffer_size : ℝ) / (tx_fs_hz : ℝ)) ∧
    (global_tx_times 2 buffer_size)[buffer_size]? = some (1 / (tx_fs_hz : ℝ)) ∧
    (global_tx_times 2 buffer_size)[0]? = (global_tx_times 2 buffer_size)[buffer_size]? ∧
    (1 : ℝ) / (tx_fs_hz : ℝ) ≠ (buffer_size : ℝ) / (tx_fs_hz : ℝ) + 1 / (tx_fs_hz : ℝ) := by
  have hb : 0 * buffer_size + (buffer_size - 1) = buffer_size - 1 := by
    norm_num
  have h1 := global_tx_times_get buffer_size 2 0 (buffer_size - 1)
    (by norm_num) (by norm_num [buffer_size])
  rw [hb] at h1
  have h2 := global_tx_times_get buffer_size 2 1 0 (by norm_num) (by norm_num [buffer_size])
  have hb2 : 1 * buffer_size + 0 = buffer_size := by norm_num
  rw [hb2] at h2
  have h0 := global_tx_times_get buffer_size 2 0 0 (by norm_num) (by norm_num [buffer_size])
  have hb0 : 0 * buffer_size + 0 = 0 := by norm_num
  rw [hb0] at h0
  have hc : ((buffer_size - 1 : ℕ) : ℝ) = (buffer_size : ℝ) - 1 := by
    have h : (1 : ℕ) ≤ buffer_size := by norm_num [buffer_size]
    push_cast [h]
    ring
  have hfs : (tx_fs_hz : ℝ) ≠ 0 := by norm_num [tx_fs_hz]
  have hval : 1 / (tx_fs_hz : ℝ) + ((buffer_size - 1 : ℕ) : ℝ) * (1 / (tx_fs_hz : ℝ))
      = (buffer_size : ℝ) / (tx_fs_hz : ℝ) := by
    rw [hc]
    field_simp
  have hval0 : 1 / (tx_fs_hz : ℝ) + ((0 : ℕ) : ℝ) * (1 / (tx_fs_hz : ℝ))
      = 1 / (tx_fs_hz : ℝ) := by
    norm_num
  refine ⟨?_, ?_, ?_, ?_⟩
  · rw [h1, hval]
  · rw [h2, hval0]
  · rw [h0, h2]
  · intro h
    rw [div_add_div_same] at h
    field_simp at h
    norm_num [buffer_size] at h

/-- C3 (amended): the TX phase accumulator is local to one cycle.  It is
re-initialised to `1/sample_rate` at the start of every cycle and advanced by
exactly `1/sample_rate` per synthesized sample within the cycle, so sample
`m` of every cycle `c` is synthesized at `t = 1/fs + m·(1/fs)` — the same
time sequence in every cycle (every outgoing block is identical), with a
discontinuity (reset) at each block boundary rather than a process-lifetime
strictly increasing time. -/
theorem C3_phase_reset (C n c m : ℕ) (hc : c < C) (hm : m < n) :
    (global_tx_times C n)[c * n + m]? =
      some (1 / (tx_fs_hz : ℝ) + (m : ℝ) * (1 / (tx_fs_hz : ℝ))) ∧
    (global_tx_times C n)[c * n + m]? = (global_tx_times C n)[m]? := by
  have h := global_tx_times_get n C c m hc hm
  have h0 := global_tx_times_get n C 0 m (by omega) hm
  have hb : 0 * n + m = m := by omega
  rw [hb] at h0
  exact ⟨h, by rw [h, h0]⟩

/-- Witness for `C3_phase_reset`: with 2 cycles of 2 samples, sample 1 of
cycle 1 (global position 3) is synthesized at `1/fs + 1/fs`, the same time
as sample 1 of cycle 0 (global position 1). -/
theorem C3_phase_reset_witness :
    (global_tx_times 2 2)[3]? =
      some (1 / (tx_fs_hz : ℝ) + (1 / (tx_fs_hz : ℝ))) ∧
    (global_tx_times 2 2)[3]? = (global_tx_times 2 2)[1]? := by
  have h := C3_phase_reset 2 2 1 1 (by norm_num) (by norm_num)
  norm_num at h ⊢
  exact h

/-! ## Stream Coordinator lemmas -/

lemma run_loop_stop (env : Env) (fuel : ℕ) (s : LoopState)
    (h : env.stopAt s.cycles = true) :
    run_loop env (fuel + 1) s = some
      { cause := StopCause.cancelled, cyclesCompleted := s.cycles,
        nrx := s.nrx, ntx := s.ntx, exitCode := 0, shutdownRuns := 1,
        released := clean_exit_seq } := by
  simp [run_loop, h]

lemma run_loop_advance (env : Env) (fuel : ℕ) (s : LoopState)
    (h : env.stopAt s.cycles = false)
    (hp : 0 ≤ env.pushRet s.cycles) (hr : 0 ≤ env.refillRet s.cycles) :
    run_loop env (fuel + 1) s =
      run_loop env fuel (cycle_update env s (env.pushRet s.cycles) (env.refillRet s.cycles)) := by
  simp [run_loop, h, not_lt.mpr hp, not_lt.mpr hr]

lemma cycle_update_cycles (env : Env) (s : LoopState) (a b : ℤ) :
    (cycle_update env s a b).cycles = s.cycles + 1 := rfl

/-- Every outcome the main loop can produce carries exit status 0 and a
single `shutdown()` run. -/
lemma run_loop_outcome_exit (env : Env) (fuel : ℕ) :
    ∀ (s : LoopState) (o : Outcome), run_loop env fuel s = some o →
      o.exitCode = 0 ∧ o.shutdownRuns = 1 ∧
      (o.cause = StopCause.cancelled → o.released = clean_exit_seq) ∧
      ((o.cause = StopCause.pushError ∨ o.cause = StopCause.refillError) →
        o.released = shutdown_seq) := by
  induction fuel with
  | zero => intro s o h; simp [run_loop] at h
  | succ n ih =>
    intro s o h
    simp only [run_loop] at h
    split at h
    · cases h
      refine ⟨rfl, rfl, fun _ => rfl, ?_⟩
      rintro (hc | hc) <;> simp at hc
    · split at h
      · cases h
        exact ⟨rfl, rfl, fun hc => by simp at hc, fun _ => rfl⟩
      · split at h
        · cases h
          exact ⟨rfl, rfl, fun hc => by simp at hc, fun _ => rfl⟩
        · exact ih _ o h

/-- C6: every termination path of the coordinator exits with status 0 —
cancellation, transport write (push) error, transport read (refill) error,
and the `errchk` configuration-failure path all reach `exit(0)` inside
`shutdown()`; no such condition yields a nonzero exit status. -/
theorem C6_exit_status_zero :
    (∀ (env : Env) (fuel : ℕ) (s : LoopState) (o : Outcome),
      run_loop env fuel s = some o → o.exitCode = 0) ∧
    config_error_outcome.exitCode = 0 := by
  constructor
  · intro env fuel s o h
    exact (run_loop_outcome_exit env fuel s o h).1
  · rfl

/-- Witness for `C6_exit_status_zero`: a run cancelled at the first check
terminates with exit status 0 (and the error paths are exercised in the
companion theorems). -/
theorem C6_exit_status_zero_witness :
    Option.map Outcome.exitCode (run_loop env_cancel_now 1 ⟨0, 0, 0⟩) = some 0 := by
  have h : run_loop env_cancel_now 1 ⟨0, 0, 0⟩ = some
      { cause := StopCause.cancelled, cyclesCompleted := 0, nrx := 0, ntx := 0,
        exitCode := 0, shutdownRuns := 1, released := clean_exit_seq } := by
    rfl
  have he := C6_exit_status_zero.1 env_cancel_now 1 ⟨0, 0, 0⟩ _ h
  rw [h, Option.map_some', he]

/-- C7 counterexample: on the transport-write-error path (first push fails),
`shutdown()` releases only the transport-level resources.  The FFT plan and
its `in`/`out` buffers are never released and the open result sinks `fp1`,
`fp2` are never closed on this path, and the transport buffers are released
incoming (`rxbuf`) before outgoing (`txbuf`) — not outgoing before incoming
as claimed. -/
theorem C7_claim_counterexample :
    run_loop env_push_fail 1 ⟨0, 0, 0⟩ = some
      { cause := StopCause.pushError, cyclesCompleted := 0, nrx := 0, ntx := 0,
        exitCode := 0, shutdownRuns := 1, released := shutdown_seq } ∧
    Res.fftPlan ∉ shutdown_seq ∧ Res.fftIn ∉ shutdown_seq ∧ Res.fftOut ∉ shutdown_seq ∧
    Res.fp1 ∉ shutdown_seq ∧ Res.fp2 ∉ shutdown_seq ∧
    shutdown_seq.indexOf Res.rxBuf < shutdown_seq.indexOf Res.txBuf := by
  refine ⟨rfl, ?_, ?_, ?_, ?_, ?_, ?_⟩ <;> decide

/-- C7 (amended): on the transport error paths `shutdown()` runs exactly
once and the process exits 0, but only the transport resources are released
— the RX buffer first, then the TX buffer (incoming before outgoing), the
four streaming channels, and the iio context.  The FFT plan, the FFT
`in`/`out` buffers and the open result sinks (`fp1`, `fp2`) are released
only on the cancellation path; on the error paths they leak.  The
configuration-failure path releases only the context (nothing else is
acquired yet). -/
theorem C7_error_path_release :
    (∀ (env : Env) (fuel : ℕ) (s : LoopState) (o : Outcome),
      run_loop env fuel s = some o →
        o.exitCode = 0 ∧ o.shutdownRuns = 1 ∧
        ((o.cause = StopCause.pushError ∨ o.cause = StopCause.refillError) →
          o.released = shutdown_seq) ∧
        (o.cause = StopCause.cancelled → o.released = clean_exit_seq)) ∧
    shutdown_seq = [Res.rxBuf, Res.txBuf, Res.chRxI, Res.chRxQ, Res.chTxI,
      Res.chTxQ, Res.iioCtx] ∧
    clean_exit_seq = [Res.fp1, Res.fp2, Res.fftPlan, Res.fftIn, Res.fftOut,
      Res.rxBuf, Res.txBuf, Res.chRxI, Res.chRxQ, Res.chTxI, Res.chTxQ, Res.iioCtx] ∧
    config_error_outcome.released = [Res.iioCtx] ∧
    config_error_outcome.exitCode = 0 ∧
    Res.fftPlan ∉ shutdown_seq ∧ Res.fp1 ∉ shutdown_seq ∧ Res.fp2 ∉ shutdown_seq := by
  refine ⟨?_, rfl, rfl, rfl, rfl, by decide, by decide, by decide⟩
  intro env fuel s o h
  obtain ⟨h1, h2, h3, h4⟩ := run_loop_outcome_exit env fuel s o h
  exact ⟨h1, h2, h4, h3⟩

/-- Witness for `C7_error_path_release`: the run whose first refill fails
releases exactly the transport resources and exits 0. -/
theorem C7_error_path_release_witness :
    Option.map Outcome.released (run_loop
      { pushRet := fun _ => 0, refillRet := fun _ => -1, stopAt := fun _ => false,
        rxSampleSize := 4, txSampleSize := 4 } 1 ⟨0, 0, 0⟩) = some shutdown_seq := by
  have h : run_loop
      { pushRet := fun _ => 0, refillRet := fun _ => -1, stopAt := fun _ => false,
        rxSampleSize := 4, txSampleSize := 4 } 1 ⟨0, 0, 0⟩ = some
      { cause := StopCause.refillError, cyclesCompleted := 0, nrx := 0, ntx := 0,
        exitCode := 0, shutdownRuns := 1, released := shutdown_seq } := by
    rfl
  have he := (C7_error_path_release.1 _ 1 ⟨0, 0, 0⟩ _ h).2.2.1 (Or.inr rfl)
  rw [h, Option.map_some', he]

/-- If the cancellation flag becomes visible exactly at the checks after
cycle `k` and the transport never fails, the loop finishes the cycle in
progress and stops at the next checkpoint. -/
lemma run_loop_cancel_after (env : Env) (k : ℕ)
    (hstop : ∀ c, env.stopAt c = decide (k < c))
    (hp : ∀ c, 0 ≤ env.pushRet c) (hr : ∀ c, 0 ≤ env.refillRet c) :
    ∀ (d : ℕ) (s : LoopState) (fuel : ℕ), s.cycles + d = k + 1 → d + 1 ≤ fuel →
    ∃ o, run_loop env fuel s = some o ∧ o.cause = StopCause.cancelled ∧
      o.cyclesCompleted = k + 1 ∧ o.exitCode = 0 ∧ o.shutdownRuns = 1 := by
  intro d
  induction d with
  | zero =>
    intro s fuel hcyc hfuel
    obtain ⟨f, rfl⟩ : ∃ f, fuel = f + 1 := ⟨fuel - 1, by omega⟩
    have hstop' : env.stopAt s.cycles = true := by
      rw [hstop]
      simp only [decide_eq_true_eq]
      omega
    rw [run_loop_stop env f s hstop']
    exact ⟨_, rfl, rfl, by simp; omega, rfl, rfl⟩
  | succ d' ih =>
    intro s fuel hcyc hfuel
    obtain ⟨f, rfl⟩ : ∃ f, fuel = f + 1 := ⟨fuel - 1, by omega⟩
    have hstop' : env.stopAt s.cycles = false := by
      rw [hstop]
      simp only [decide_eq_false_iff_not, not_lt]
      omega
    rw [run_loop_advance env f s hstop' (hp _) (hr _)]
    exact ih _ f (by rw [cycle_update_cycles]; omega) (by omega)

/-- C8: if the cancellation flag is set while cycle `k` is in progress (so
the checkpoint checks before cycles `0..k` saw it unset and every later
check sees it set) and the transport does not fail, then exactly the cycle
in progress completes — `k + 1` full cycles in total, i.e. exactly one more
full cycle after the set — the loop then leaves via the clean
`SHUTTING_DOWN` path and the process exits with status 0.  The flag is
consulted only through `env.stopAt s.cycles`, the single `while (!stop)`
checkpoint per cycle — never preemptively mid-cycle. -/
theorem C8_cancellation_latency (k fuel : ℕ) (env : Env)
    (hstop : ∀ c, env.stopAt c = decide (k < c))
    (hp : ∀ c, 0 ≤ env.pushRet c) (hr : ∀ c, 0 ≤ env.refillRet c)
    (hfuel : k + 2 ≤ fuel) :
    ∃ o, run_loop env fuel ⟨0, 0, 0⟩ = some o ∧ o.cause = StopCause.cancelled ∧
      o.cyclesCompleted = k + 1 ∧ o.exitCode = 0 ∧ o.shutdownRuns = 1 :=
  run_loop_cancel_after env k hstop hp hr (k + 1) ⟨0, 0, 0⟩ fuel
    (by show 0 + (k + 1) = k + 1; omega) (by omega)

/-- Witness for `C8_cancellation_latency`: flag set during cycle 0 of an
error-free run means exactly one completed cycle, then exit 0. -/
theorem C8_cancellation_latency_witness :
    Option.map Outcome.cyclesCompleted (run_loop env_sig_cycle0 2 ⟨0, 0, 0⟩) = some 1 ∧
    Option.map Outcome.exitCode (run_loop env_sig_cycle0 2 ⟨0, 0, 0⟩) = some 0 := by
  obtain ⟨o, ho, hc, hn, he, hs⟩ := C8_cancellation_latency 0 2 env_sig_cycle0
    (fun c => rfl) (fun c => by norm_num [env_sig_cycle0])
    (fun c => by norm_num [env_sig_cycle0]) (by norm_num)
  rw [ho, Option.map_some', Option.map_some', hn, he]
  exact ⟨rfl, rfl⟩

/-- Error-free full-block runs keep the invariant
`nrx = cycles · buffer_size` (and likewise for `ntx`): each cycle the
counters grow by bytes-transferred divided by the per-sample width, which is
exactly one block of samples. -/
lemma run_loop_full_blocks (env : Env) (N : ℕ)
    (hstop : ∀ c, env.stopAt c = decide (N ≤ c))
    (hpush : ∀ c, env.pushRet c = ((buffer_size * env.txSampleSize : ℕ) : ℤ))
    (hrefill : ∀ c, env.refillRet c = ((buffer_size * env.rxSampleSize : ℕ) : ℤ))
    (hrx : 0 < env.rxSampleSize) (htx : 0 < env.txSampleSize) :
    ∀ (d : ℕ) (s : LoopState) (fuel : ℕ), s.cycles + d = N → d + 1 ≤ fuel →
      s.nrx = s.cycles * buffer_size → s.ntx = s.cycles * buffer_size →
    ∃ o, run_loop env fuel s = some o ∧ o.nrx = N * buffer_size ∧
      o.ntx = N * buffer_size ∧ o.cyclesCompleted = N ∧
      o.cause = StopCause.cancelled ∧ o.exitCode = 0 := by
  intro d
  induction d with
  | zero =>
    intro s fuel hcyc hfuel hnrx hntx
    obtain ⟨f, rfl⟩ : ∃ f, fuel = f + 1 := ⟨fuel - 1, by omega⟩
    have hstop' : env.stopAt s.cycles = true := by
      rw [hstop]
      simp only [decide_eq_true_eq]
      omega
    rw [run_loop_stop env f s hstop']
    have hcN : s.cycles = N := by omega
    refine ⟨_, rfl, ?_, ?_, ?_, rfl, rfl⟩
    · simp only
      rw [hnrx, hcN]
    · simp only
      rw [hntx, hcN]
    · simp only
      exact hcN
  | succ d' ih =>
    intro s fuel hcyc hfuel hnrx hntx
    obtain ⟨f, rfl⟩ : ∃ f, fuel = f + 1 := ⟨fuel - 1, by omega⟩
    have hstop' : env.stopAt s.cycles = false := by
      rw [hstop]
      simp only [decide_eq_false_iff_not, not_le]
      omega
    have hp : 0 ≤ env.pushRet s.cycles := by rw [hpush]; positivity
    have hr : 0 ≤ env.refillRet s.cycles := by rw [hrefill]; positivity
    rw [run_loop_advance env f s hstop' hp hr]
    refine ih _ f ?_ (by omega) ?_ ?_
    · rw [cycle_update_cycles]; omega
    · show s.nrx + (env.refillRet s.cycles).toNat / env.rxSampleSize
        = (s.cycles + 1) * buffer_size
      rw [hrefill, Int.toNat_natCast, Nat.mul_div_cancel _ hrx, hnrx]
      ring
    · show s.ntx + (env.pushRet s.cycles).toNat / env.txSampleSize
        = (s.cycles + 1) * buffer_size
      rw [hpush, Int.toNat_natCast, Nat.mul_div_cancel _ htx, hntx]
      ring

/-- C5: assuming every transport push and refill succeeds with a full block,
after `N` completed cycles the cumulative RX sample counter equals
`N × buffer_size` (and so does TX); each cycle adds bytes-transferred
divided by the per-sample byte width, and both counters only ever grow
(each `cycle_update` leaves them no smaller). -/
theorem C5_cumulative_counters (N fuel : ℕ) (env : Env)
    (hstop : ∀ c, env.stopAt c = decide (N ≤ c))
    (hpush : ∀ c, env.pushRet c = ((buffer_size * env.txSampleSize : ℕ) : ℤ))
    (hrefill : ∀ c, env.refillRet c = ((buffer_size * env.rxSampleSize : ℕ) : ℤ))
    (hrx : 0 < env.rxSampleSize) (htx : 0 < env.txSampleSize)
    (hfuel : N + 1 ≤ fuel) :
    (∃ o, run_loop env fuel ⟨0, 0, 0⟩ = some o ∧ o.nrx = N * buffer_size ∧
      o.ntx = N * buffer_size ∧ o.cyclesCompleted = N) ∧
    (∀ (env' : Env) (s : LoopState) (a b : ℤ),
      s.nrx ≤ (cycle_update env' s a b).nrx ∧ s.ntx ≤ (cycle_update env' s a b).ntx) := by
  constructor
  · obtain ⟨o, ho, h1, h2, h3, _, _⟩ :=
      run_loop_full_blocks env N hstop hpush hrefill hrx htx N ⟨0, 0, 0⟩ fuel
        (by show 0 + N = N; omega) (by omega)
        (by show 0 = 0 * buffer_size; ring) (by show 0 = 0 * buffer_size; ring)
    exact ⟨o, ho, h1, h2, h3⟩
  · intro env' s a b
    exact ⟨Nat.le_add_right _ _, Nat.le_add_right _ _⟩

/-- Witness for `C5_cumulative_counters`: one error-free full-block cycle
leaves both counters at exactly `1 × buffer_size` samples. -/
theorem C5_cumulative_counters_witness :
    Option.map Outcome.nrx (run_loop env_full_blocks 2 ⟨0, 0, 0⟩) = some (1 * buffer_size) ∧
    Option.map Outcome.ntx (run_loop env_full_blocks 2 ⟨0, 0, 0⟩) = some (1 * buffer_size) := by
  obtain ⟨⟨o, ho, hn, ht, hc⟩, _⟩ := C5_cumulative_counters 1 2 env_full_blocks
    (fun c => rfl) (fun c => rfl) (fun c => rfl)
    (by norm_num [env_full_blocks]) (by norm_num [env_full_blocks]) (by norm_num)
  rw [ho, Option.map_some', Option.map_some', hn, ht]
  exact ⟨rfl, rfl⟩
